import Mathlib

/-!
Shallow embedding of the astrodb ingestion pipeline
(src/prototype.py and src/mass_add_mongo.py).

Python scalar cell values are modelled by the inductive `Value`
(arbitrary-precision `Int` for python ints, exact `Rat` for the float
values appearing in the data, `String` for text, `Bool` for booleans).
Python exceptions (TypeError / ValueError / KeyError) are modelled by
`Option`: a `none` result means the corresponding python code raises.
-/

namespace AstroDB

/-- A python scalar value as it appears in a row cell. -/
inductive Value where
  | int (n : ℤ)
  | real (q : ℚ)
  | text (s : String)
  | bool (b : Bool)
deriving DecidableEq, Repr

/-- Variant test: is this a text value? -/
def Value.isText : Value → Bool
  | .text _ => true
  | _ => false

/-- Variant test: numeric python values (int, float, bool). -/
def Value.isNumeric : Value → Bool
  | .int _ => true
  | .real _ => true
  | .bool _ => true
  | .text _ => false

/-- A row is a mapping from column name to cell value
(python `rec[name]` lookup, `KeyError` modelled by `Option`). -/
def Row := List (String × Value)

/-- Python `rec[name]`: first binding for `name`, `none` on `KeyError`. -/
def rowGet (row : Row) (name : String) : Option Value :=
  match row with
  | [] => none
  | (k, v) :: rest => if k = name then some v else rowGet rest name

-- ===================================================================
-- Typed value coercion (src/prototype.py, `generate_record`)
-- ===================================================================

/-- The `FITS2SQLITE_DATATYPES` dict of src/prototype.py.
`none` models the `KeyError` raised on an unknown format code
(note: code `P` is absent from the dict in the source). -/
def FITS2SQLITE_DATATYPES (f : String) : Option String :=
  if f = "L" then some "INTEGER"
  else if f = "X" then some "INTEGER"
  else if f = "B" then some "INTEGER"
  else if f = "I" then some "INTEGER"
  else if f = "J" then some "INTEGER"
  else if f = "K" then some "INTEGER"
  else if f = "A" then some "TEXT"
  else if f = "E" then some "REAL"
  else if f = "D" then some "REAL"
  else if f = "C" then some "TEXT"
  else if f = "M" then some "TEXT"
  else if f = "Q" then some "TEXT"
  else none

/-- Value of a list of decimal digit characters; `none` if any character
is not a digit. -/
def digitsToNatAux (acc : ℕ) : List Char → Option ℕ
  | [] => some acc
  | c :: cs => if c.isDigit then digitsToNatAux (10 * acc + (c.toNat - 48)) cs else none

/-- Nonempty all-digit string to a natural number. -/
def digitsToNat (l : List Char) : Option ℕ :=
  if l = [] then none else digitsToNatAux 0 l

/-- Python `int(s)` on a string: optional sign followed by a nonempty
run of digits; anything else raises `ValueError` (`none`). -/
def pyIntOfStr (s : String) : Option ℤ :=
  match s.toList with
  | '-' :: rest => (digitsToNat rest).map (fun n => -(n : ℤ))
  | '+' :: rest => (digitsToNat rest).map (fun n => (n : ℤ))
  | l => (digitsToNat l).map (fun n => (n : ℤ))

/-- Digits with an optional single decimal point, e.g. `12.5`.
Returns the exact rational value. (Exponent notation is not modelled;
no claim depends on it.) -/
def decimalOfDigits (l : List Char) : Option ℚ :=
  let intPart := l.takeWhile (·.isDigit)
  let rest := l.dropWhile (·.isDigit)
  match rest with
  | [] => (digitsToNat intPart).map (fun n => (n : ℚ))
  | '.' :: fracPart =>
      if fracPart.all (·.isDigit) ∧ (intPart ≠ [] ∨ fracPart ≠ []) then
        match digitsToNatAux 0 intPart, digitsToNatAux 0 fracPart with
        | some ip, some fp => some ((ip : ℚ) + (fp : ℚ) / ((10 : ℚ) ^ fracPart.length))
        | _, _ => none
      else none
  | _ => none

/-- Python `float(s)` on a string: optional sign and a decimal literal. -/
def pyFloatOfStr (s : String) : Option ℚ :=
  match s.toList with
  | '-' :: rest => (decimalOfDigits rest).map (fun q => -q)
  | '+' :: rest => decimalOfDigits rest
  | l => decimalOfDigits l

/-- Truncation of a rational toward zero, as python `int(float)` does. -/
def ratTruncate (q : ℚ) : ℤ :=
  if 0 ≤ q then ⌊q⌋ else ⌈q⌉

/-- Python `int(x)` on a scalar value. `none` models `ValueError`. -/
def pyInt : Value → Option ℤ
  | .int n => some n
  | .real q => some (ratTruncate q)
  | .text s => pyIntOfStr s
  | .bool b => some (if b then 1 else 0)

/-- Python `float(x)` on a scalar value. `none` models `ValueError`. -/
def pyFloat : Value → Option ℚ
  | .int n => some (n : ℚ)
  | .real q => some q
  | .text s => pyFloatOfStr s
  | .bool b => some (if b then 1 else 0)

/-- Python `str(x)` on a scalar value (total). -/
def pyStr : Value → String
  | .int n => toString n
  | .real q => toString q
  | .text s => s
  | .bool b => if b then "True" else "False"

/-- The per-column coercion step of `generate_record` in src/prototype.py:
look up the SQLite type for the column's FITS format code, then apply
`int`, `float`, or `str`. `none` models a raised `KeyError` (unknown
format) or `ValueError` (unparseable value). -/
def coerceValue (fmt : String) (v : Value) : Option Value :=
  match FITS2SQLITE_DATATYPES fmt with
  | none => none
  | some dt =>
      if dt = "INTEGER" then (pyInt v).map Value.int
      else if dt = "REAL" then (pyFloat v).map Value.real
      else some (.text (pyStr v))

/-- The `generate_record` function of src/prototype.py: coerce each
column's cell in order, producing the tuple of coerced values. -/
def generateRecordProto (rec : Row) (cols : List (String × String)) : Option (List Value) :=
  match cols with
  | [] => some []
  | (name, fmt) :: rest =>
      match rowGet rec name with
      | none => none
      | some v =>
          match coerceValue fmt v with
          | none => none
          | some w => (generateRecordProto rec rest).map (fun l => w :: l)

/-- The `MONGO_MAX_INT` constant of src/mass_add_mongo.py (line 17).
It is defined in the source but never referenced by any other code. -/
def MONGO_MAX_INT : ℤ := 2 ^ (8 * 8)

-- ===================================================================
-- Records and envelopes (src/mass_add_mongo.py)
-- ===================================================================

/-- The `coords` envelope of a record: each bound is `none` (python
`None`) until a matching coordinate column sets it. -/
structure Coords where
  raMin : Option ℚ
  raMax : Option ℚ
  decMin : Option ℚ
  decMax : Option ℚ
deriving DecidableEq, Repr

/-- A record as built by `generate_record` of src/mass_add_mongo.py:
the `data` key holds the list of constituent row dicts (one per original
row, the provenance of the record), the `coords` key holds the envelope. -/
structure Record where
  data : List (List (String × Value))
  coords : Coords
deriving DecidableEq, Repr

/-- Cell value as a rational coordinate, for envelope bookkeeping.
Python compares the raw cell numerically; coordinate columns hold
numeric scalars (ints, floats, bools compare numerically in python). -/
def Value.toQ : Value → Option ℚ
  | .int n => some (n : ℚ)
  | .real q => some q
  | .bool b => some (if b then 1 else 0)
  | .text _ => none

/-- Python `str.lower()` (ASCII case folding suffices for column
names). -/
def strLower (s : String) : String := ⟨s.data.map Char.toLower⟩

/-- One min/max envelope update of `generate_record`:
`if bound is None or v < bound: bound = v` (resp. `>`). -/
def updateBound (cmp : ℚ → ℚ → Prop) [DecidableRel cmp] (bound : Option ℚ) (v : ℚ) : Option ℚ :=
  match bound with
  | none => some v
  | some b => if cmp v b then some v else some b

/-- The envelope-accumulation loop body of `generate_record`: fold the
coordinate columns of the row into the `coords` structure. -/
def foldCoords (row : Row) (cols : List String) (start : Coords) : Option Coords :=
  match cols with
  | [] => some start
  | c :: rest =>
      match rowGet row c with
      | none => none
      | some v =>
          if strLower c = "ra" then
            match v.toQ with
            | some q =>
                foldCoords row rest
                  { start with raMin := updateBound (· < ·) start.raMin q,
                               raMax := updateBound (· > ·) start.raMax q }
            | none => foldCoords row rest start
          else if strLower c = "dec" then
            match v.toQ with
            | some q =>
                foldCoords row rest
                  { start with decMin := updateBound (· < ·) start.decMin q,
                               decMax := updateBound (· > ·) start.decMax q }
            | none => foldCoords row rest start
          else foldCoords row rest start

/-- The field-map accumulation of `generate_record`: the `SOURCE_KEY`
entry followed by one entry per column (`record_data` in the source). -/
def buildRecordData (row : Row) (cols : List String) (src : String) :
    Option (List (String × Value)) :=
  match cols with
  | [] => some []
  | c :: rest =>
      match rowGet row c with
      | none => none
      | some v => (buildRecordData row rest src).map (fun l => (c, v) :: l)

/-- `generate_record` of src/mass_add_mongo.py (lines 125-155): build the
single-row field dict and the envelope; the envelope bounds stay `None`
when no `ra`/`dec` column (case-insensitive) exists. `none` models a
`KeyError` on a row missing a declared column. -/
def generateRecord (row : Row) (cols : List String) (src : String) : Option Record :=
  match buildRecordData row cols src, foldCoords row cols ⟨none, none, none, none⟩ with
  | some fields, some coords =>
      some { data := [("source", .text src) :: fields], coords := coords }
  | _, _ => none

/-- `merge_records` of src/mass_add_mongo.py (lines 315-342), verbatim:
`data` lists are concatenated (`rec1` first); every envelope bound —
including both `max` fields — is computed with `min`, exactly as the
source does. python `min(None, x)` raises `TypeError`, modelled by the
all-`some` requirement. -/
def mergeRecords (rec1 rec2 : Record) : Option Record :=
  match rec1.coords.raMin, rec2.coords.raMin, rec1.coords.raMax, rec2.coords.raMax,
        rec1.coords.decMin, rec2.coords.decMin, rec1.coords.decMax, rec2.coords.decMax with
  | some a1, some a2, some b1, some b2, some c1, some c2, some d1, some d2 =>
      some { data := rec1.data ++ rec2.data,
             coords := { raMin := some (min a1 a2), raMax := some (min b1 b2),
                         decMin := some (min c1 c2), decMax := some (min d1 d2) } }
  | _, _, _, _, _, _, _, _ => none

-- ===================================================================
-- Spatial matcher (src/mass_add_mongo.py, `should_merge_by_distance`)
-- ===================================================================

/-- The envelope-midpoint representative point of a record, in degrees:
`((ra.min + ra.max) / 2, (dec.min + dec.max) / 2)`. `none` models the
`TypeError` raised when any bound is `None`. -/
def midpoint (r : Record) : Option (ℚ × ℚ) :=
  match r.coords.raMin, r.coords.raMax, r.coords.decMin, r.coords.decMax with
  | some a, some b, some c, some d => some ((a + b) / 2, (c + d) / 2)
  | _, _, _, _ => none

/-- A record whose envelope bounds are all set (its midpoint exists). -/
def Record.numeric (r : Record) : Prop := (midpoint r).isSome

instance (r : Record) : Decidable r.numeric := by
  unfold Record.numeric; infer_instance

/-- Degrees to radians. -/
noncomputable def degToRad (x : ℚ) : ℝ := (x : ℝ) * Real.pi / 180

/-- Arcseconds to radians (1 arcsec = 1/3600 degree). -/
noncomputable def asecToRad (t : ℚ) : ℝ := (t : ℝ) * Real.pi / 648000

/-- Great-circle angular separation (radians) between two points given
as (ra, dec) in degrees, by the spherical law of cosines; this is the
mathematical value of astropy's `SkyCoord.separation`. -/
noncomputable def sepRad (p q : ℚ × ℚ) : ℝ :=
  Real.arccos (Real.sin (degToRad p.2) * Real.sin (degToRad q.2) +
    Real.cos (degToRad p.2) * Real.cos (degToRad q.2) *
      Real.cos (degToRad p.1 - degToRad q.1))

/-- astropy `Angle.is_within_bounds(lower, upper)`: checks
`lower <= angle < upper` (upper bound exclusive). -/
def withinBounds (x lower upper : ℝ) : Prop := lower ≤ x ∧ x < upper

/-- `should_merge_by_distance` of src/mass_add_mongo.py (lines 289-312):
take both records' envelope midpoints, then test the great-circle
separation with `is_within_bounds(-threshold, threshold)` (arcsec).
`none` models the `TypeError` on a `None` envelope bound. The returned
proposition is the truth value of the python boolean. -/
noncomputable def shouldMergeByDistance (rec1 rec2 : Record) (threshold : ℚ) : Option Prop :=
  match midpoint rec1, midpoint rec2 with
  | some p, some q =>
      some (withinBounds (sepRad p q) (-(asecToRad threshold)) (asecToRad threshold))
  | _, _ => none

/-- The matcher returned `True`: `should_merge_by_distance` evaluated
without error and its boolean is true. -/
noncomputable def matchTrue (rec1 rec2 : Record) (threshold : ℚ) : Prop :=
  ∃ P, shouldMergeByDistance rec1 rec2 threshold = some P ∧ P

-- ===================================================================
-- Executable matcher abstraction
-- ===================================================================

/-- An executable stand-in for `should_merge_by_distance`
(`some b` = returns boolean `b`, `none` = raises). The pipeline
functions below are parameterized by it because the exact real-valued
comparison is not computable; `decidesAt` ties it to the real matcher. -/
def Matcher := Record → Record → Option Bool

/-- `m` agrees with `should_merge_by_distance` at threshold `t` on the
pair `(a, b)`: same error behavior, and its boolean is the truth value
of the separation test. -/
def decidesAt (m : Matcher) (t : ℚ) (a b : Record) : Prop :=
  match shouldMergeByDistance a b t with
  | some P => ∃ v, m a b = some v ∧ (v = true ↔ P)
  | none => m a b = none

/-- `m` agrees with `should_merge_by_distance` at threshold `t`
everywhere. -/
def decides (m : Matcher) (t : ℚ) : Prop := ∀ a b, decidesAt m t a b

-- ===================================================================
-- Buffer merger (src/mass_add_mongo.py, `append_record`)
-- ===================================================================

/-- The scan loop of `append_record`: walk the buffer and return the
first existing record the matcher accepts (`some none` = no match,
outer `none` = the matcher raised). -/
def scanMatch (m : Matcher) (record : Record) : List Record → Option (Option Record)
  | [] => some none
  | e :: rest =>
      match m record e with
      | none => none
      | some true => some (some e)
      | some false => scanMatch m record rest

/-- `append_record` of src/mass_add_mongo.py (lines 228-245): merge the
incoming record with the first matching buffer entry (removing that
entry — python `list.remove` deletes the first equal element), then
append the (possibly merged) record at the end. -/
def appendRecord (m : Matcher) (record : Record) (buffer : List Record) :
    Option (List Record) :=
  match scanMatch m record buffer with
  | none => none
  | some none => some (buffer ++ [record])
  | some (some e) =>
      (mergeRecords record e).map (fun merged => buffer.erase e ++ [merged])

/-- Repeated `append_record`, as the orchestrator's row loop performs it:
append each record of `recs` to the buffer in order. -/
def appendAll (m : Matcher) (recs : List Record) (buffer : List Record) :
    Option (List Record) :=
  match recs with
  | [] => some buffer
  | r :: rest =>
      match appendRecord m r buffer with
      | none => none
      | some buffer' => appendAll m rest buffer'

-- ===================================================================
-- Store matcher (src/mass_add_mongo.py, `insert_record_list`)
-- ===================================================================

/-- The mongo prefilter query of `insert_record_list`: does the stored
record's envelope intersect the padded rectangle? A `None` stored bound
never satisfies a `$lte`/`$gte` numeric comparison. -/
def matchesQuery (cand : Record) (raMin raMax decMin decMax : ℚ) : Bool :=
  (match cand.coords.raMin with | some v => decide (v ≤ raMax) | none => false) &&
  (match cand.coords.raMax with | some v => decide (raMin ≤ v) | none => false) &&
  (match cand.coords.decMin with | some v => decide (v ≤ decMax) | none => false) &&
  (match cand.coords.decMax with | some v => decide (decMin ≤ v) | none => false)

/-- The candidate lookup of `insert_record_list`: pad the buffered
record's envelope by `threshold` on each side and filter the collection.
`none` models the `TypeError` of `None - threshold` when the buffered
record has a missing bound. -/
def queryCandidates (threshold : ℚ) (newRec : Record) (coll : List Record) :
    Option (List Record) :=
  match newRec.coords.raMin, newRec.coords.raMax,
        newRec.coords.decMin, newRec.coords.decMax with
  | some a, some b, some c, some d =>
      some (coll.filter (fun cand =>
        matchesQuery cand (a - threshold) (b + threshold) (c - threshold) (d + threshold)))
  | _, _, _, _ => none

/-- The candidate loop of `insert_record_list`: test every candidate in
order against the (evolving) buffered record; on a match, merge and mark
the candidate deleted. There is no `break`: the loop continues after a
merge. Returns the final record and the deleted candidates in order. -/
def reconcileLoop (m : Matcher) (newRec : Record) :
    List Record → Option (Record × List Record)
  | [] => some (newRec, [])
  | c :: rest =>
      match m newRec c with
      | none => none
      | some false => reconcileLoop m newRec rest
      | some true =>
          match mergeRecords newRec c with
          | none => none
          | some merged =>
              (reconcileLoop m merged rest).map (fun p => (p.1, c :: p.2))

/-- The per-record loop of `insert_record_list`, threading the
collection state (candidate deletions are visible to later records;
`delete_one` removes the first equal stored record). Returns the
`final_record_list` and the collection after the deletions. -/
def insertLoop (m : Matcher) (threshold : ℚ) :
    List Record → List Record → Option (List Record × List Record)
  | [], coll => some ([], coll)
  | r :: rest, coll =>
      match queryCandidates threshold r coll with
      | none => none
      | some cands =>
          match reconcileLoop m r cands with
          | none => none
          | some (r', deleted) =>
              let coll' := deleted.foldl (fun cl d => cl.erase d) coll
              (insertLoop m threshold rest coll').map
                (fun p => (r' :: p.1, p.2))

/-- `insert_record_list` of src/mass_add_mongo.py (lines 248-286):
reconcile every buffered record against the store, then insert the
final record list (`insert_records` / `insert_many` appends it to the
collection). Returns the list passed to the store insert and the
resulting collection. -/
def insertRecordList (m : Matcher) (listOfRecords : List Record)
    (coll : List Record) (threshold : ℚ) : Option (List Record × List Record) :=
  (insertLoop m threshold listOfRecords coll).map
    (fun p => (p.1, p.2 ++ p.1))

-- ===================================================================
-- Pipeline orchestrator (src/mass_add_mongo.py, `upload_hdu_list`)
-- ===================================================================

/-- The row loop of `upload_hdu_list`: generate a record per row, append
it to the buffer, and flush the buffer through `insert_record_list`
whenever `0 < B <= len(buffer)`. Returns the list of record lists
passed to the store insert (one per flush), the remaining buffer, and
the collection state. -/
def uploadLoop (m : Matcher) (threshold : ℚ) (B : ℤ) (cols : List String) (src : String) :
    List Row → List Record → List Record →
    Option (List (List Record) × List Record × List Record)
  | [], buffer, coll => some ([], buffer, coll)
  | row :: rest, buffer, coll =>
      match generateRecord row cols src with
      | none => none
      | some record =>
          match appendRecord m record buffer with
          | none => none
          | some buffer' =>
              if 0 < B ∧ B ≤ (buffer'.length : ℤ) then
                match insertRecordList m buffer' coll threshold with
                | none => none
                | some (finals, coll') =>
                    (uploadLoop m threshold B cols src rest [] coll').map
                      (fun p => (finals :: p.1, p.2))
              else
                uploadLoop m threshold B cols src rest buffer' coll

/-- `upload_hdu_list` of src/mass_add_mongo.py (lines 185-225): run the
row loop, then unconditionally drain whatever remains in the buffer
through one final `insert_record_list`. Returns the full trace of
record lists passed to the store insert (the drain's list last) and the
final collection. -/
def uploadHduList (m : Matcher) (threshold : ℚ) (B : ℤ) (cols : List String)
    (src : String) (rows : List Row) (coll : List Record) :
    Option (List (List Record) × List Record) :=
  match uploadLoop m threshold B cols src rows [] coll with
  | none => none
  | some (trace, buffer, coll') =>
      match insertRecordList m buffer coll' threshold with
      | none => none
      | some (finals, coll'') => some (trace ++ [finals], coll'')

-- ===================================================================
-- Concrete matchers and records used in the theorems below
-- ===================================================================

/-- The matcher realizing threshold 0: returns `False` whenever both
records have full envelopes, and raises otherwise (proved below to
agree with `should_merge_by_distance` at threshold 0 everywhere). -/
def mZero : Matcher :=
  fun a b => if (midpoint a).isSome && (midpoint b).isSome then some false else none

/-- The always-true matcher, used on runs where every tested pair has
identical representative points (where it provably agrees with
`should_merge_by_distance`). -/
def mTrue : Matcher := fun _ _ => some true

/-- A singleton record at ra = dec = 0. -/
def recA : Record := ⟨[[("source", .text "a")]], ⟨some 0, some 0, some 0, some 0⟩⟩

/-- A singleton record at ra = dec = 2. -/
def recB : Record := ⟨[[("source", .text "b")]], ⟨some 2, some 2, some 2, some 2⟩⟩

/-- What `merge_records` actually produces on `recA`, `recB`: every
envelope bound is the minimum, including both `max` fields. -/
def recAB : Record := ⟨recA.data ++ recB.data, ⟨some 0, some 0, some 0, some 0⟩⟩

/-- A singleton record at (ra, dec) = (10, 20). -/
def recN : Record := ⟨[[("source", .text "n")]], ⟨some 10, some 10, some 20, some 20⟩⟩

/-- A stored record at (10, 20). -/
def recC1 : Record := ⟨[[("source", .text "c1")]], ⟨some 10, some 10, some 20, some 20⟩⟩

/-- A second stored record at (10, 20). -/
def recC2 : Record := ⟨[[("source", .text "c2")]], ⟨some 10, some 10, some 20, some 20⟩⟩

/-- `merge_records recN recC1`. -/
def recNC1 : Record := ⟨recN.data ++ recC1.data, ⟨some 10, some 10, some 20, some 20⟩⟩

/-- `merge_records recNC1 recC2`. -/
def recNC12 : Record := ⟨recNC1.data ++ recC2.data, ⟨some 10, some 10, some 20, some 20⟩⟩

/-- The midpoint of `recN` (and of every record above at (10, 20)). -/
def pN : ℚ × ℚ := (10, 20)

/-- A row with no `ra`/`dec` column. -/
def rowX : Row := [("flux", .real 5)]

/-- The column list of `rowX`. -/
def colsX : List String := ["flux"]

/-- The record `generate_record` builds from `rowX`: its envelope
bounds are all `None`. -/
def recX : Record := ⟨[[("source", .text "f"), ("flux", .real 5)]], ⟨none, none, none, none⟩⟩

/-- A row at (ra, dec) = (10, 20) with payload 1. -/
def row1 : Row := [("ra", .real 10), ("dec", .real 20), ("flux", .int 1)]

/-- A second row at (10, 20) with payload 2. -/
def row2 : Row := [("ra", .real 10), ("dec", .real 20), ("flux", .int 2)]

/-- The columns of `row1`, `row2`. -/
def colsR : List String := ["ra", "dec", "flux"]

/-- The record generated from `row1`. -/
def rec1 : Record :=
  ⟨[[("source", .text "s"), ("ra", .real 10), ("dec", .real 20), ("flux", .int 1)]],
   ⟨some 10, some 10, some 20, some 20⟩⟩

/-- The record generated from `row2`. -/
def rec2 : Record :=
  ⟨[[("source", .text "s"), ("ra", .real 10), ("dec", .real 20), ("flux", .int 2)]],
   ⟨some 10, some 10, some 20, some 20⟩⟩

/-- `merge_records rec2 rec1` (the incoming record comes first). -/
def rec21 : Record := ⟨rec2.data ++ rec1.data, ⟨some 10, some 10, some 20, some 20⟩⟩

-- ===================================================================
-- Helper lemmas
-- ===================================================================

/-- Angular separation is never negative. -/
theorem sepRad_nonneg (p q : ℚ × ℚ) : 0 ≤ sepRad p q :=
  Real.arccos_nonneg _

/-- A point is at separation exactly 0 from itself. -/
theorem sepRad_self (p : ℚ × ℚ) : sepRad p p = 0 := by
  unfold sepRad
  rw [sub_self, Real.cos_zero, mul_one]
  have h : Real.sin (degToRad p.2) * Real.sin (degToRad p.2) +
      Real.cos (degToRad p.2) * Real.cos (degToRad p.2) = 1 := by
    have := Real.sin_sq_add_cos_sq (degToRad p.2)
    nlinarith [this]
  rw [h, Real.arccos_one]

/-- Threshold 0 converts to radian bound 0. -/
theorem asecToRad_zero : asecToRad 0 = 0 := by
  simp [asecToRad]

/-- Nonnegative thresholds convert to nonnegative radian bounds. -/
theorem asecToRad_nonneg {t : ℚ} (ht : 0 ≤ t) : 0 ≤ asecToRad t := by
  unfold asecToRad
  have h : (0 : ℝ) ≤ (t : ℝ) := by exact_mod_cast ht
  positivity

/-- Positive thresholds convert to positive radian bounds. -/
theorem asecToRad_pos {t : ℚ} (ht : 0 < t) : 0 < asecToRad t := by
  unfold asecToRad
  have h : (0 : ℝ) < (t : ℝ) := by exact_mod_cast ht
  positivity

/-- At threshold 0 the bounds test is unsatisfiable: no separation is
strictly below 0. -/
theorem not_withinBounds_zero (p q : ℚ × ℚ) :
    ¬ withinBounds (sepRad p q) (-(asecToRad 0)) (asecToRad 0) := by
  intro h
  have h1 := h.2
  rw [asecToRad_zero] at h1
  exact absurd h1 (not_lt.mpr (sepRad_nonneg p q))

/-- At a positive threshold, the bounds test holds for coincident
representative points. -/
theorem withinBounds_self_sep (p : ℚ × ℚ) {t : ℚ} (ht : 0 < t) :
    withinBounds (sepRad p p) (-(asecToRad t)) (asecToRad t) := by
  have h0 := sepRad_self p
  have hp := asecToRad_pos ht
  exact ⟨by rw [h0]; linarith, by rw [h0]; exact hp⟩

/-- What `merge_records` does to the `data` lists, whenever it does not
raise. -/
theorem mergeRecords_data {a b m' : Record} (h : mergeRecords a b = some m') :
    m'.data = a.data ++ b.data := by
  unfold mergeRecords at h
  split at h
  · exact congrArg Record.data (Option.some.inj h).symm ▸ by
      cases (Option.some.inj h); rfl
  · exact absurd h (by simp)

/-- `merge_records` succeeds whenever both records have full
envelopes. -/
theorem mergeRecords_isSome {a b : Record}
    (ha : ∃ p, midpoint a = some p) (hb : ∃ p, midpoint b = some p) :
    ∃ m', mergeRecords a b = some m' := by
  obtain ⟨pa, hpa⟩ := ha
  obtain ⟨pb, hpb⟩ := hb
  unfold midpoint at hpa hpb
  unfold mergeRecords
  cases h1 : a.coords.raMin <;> cases h2 : a.coords.raMax <;>
    cases h3 : a.coords.decMin <;> cases h4 : a.coords.decMax <;>
    simp [h1, h2, h3, h4] at hpa ⊢ <;>
  · cases h5 : b.coords.raMin <;> cases h6 : b.coords.raMax <;>
      cases h7 : b.coords.decMin <;> cases h8 : b.coords.decMax <;>
      simp [h5, h6, h7, h8] at hpb ⊢

/-- The always-true matcher agrees with `should_merge_by_distance` on
any pair of records sharing one representative point, at any positive
threshold. -/
theorem decidesAt_mTrue_same_mid {a b : Record} {p : ℚ × ℚ} {t : ℚ}
    (ha : midpoint a = some p) (hb : midpoint b = some p) (ht : 0 < t) :
    decidesAt mTrue t a b := by
  unfold decidesAt shouldMergeByDistance
  rw [ha, hb]
  exact ⟨true, rfl, by simp [withinBounds_self_sep p ht]⟩

/-- Any matcher agreeing with `should_merge_by_distance` at threshold 0
returns `False` on records with full envelopes. -/
theorem matcher_false_zero {m : Matcher} (hm : decides m 0) {a b : Record}
    (ha : ∃ p, midpoint a = some p) (hb : ∃ p, midpoint b = some p) :
    m a b = some false := by
  obtain ⟨pa, hpa⟩ := ha
  obtain ⟨pb, hpb⟩ := hb
  have h := hm a b
  unfold decidesAt shouldMergeByDistance at h
  rw [hpa, hpb] at h
  obtain ⟨v, hv, hiff⟩ := h
  cases v with
  | true => exact absurd (hiff.mp rfl) (not_withinBounds_zero pa pb)
  | false => exact hv

/-- `mZero` agrees with `should_merge_by_distance` at threshold 0 on
every pair of records. -/
theorem decidesZero : decides mZero 0 := by
  intro a b
  unfold decidesAt shouldMergeByDistance mZero
  cases ha : midpoint a <;> cases hb : midpoint b <;> simp [ha, hb]
  exact fun h => absurd h (not_withinBounds_zero _ _)

/-- If the matcher rejects every buffer entry, the scan finds no merge
partner. -/
theorem scanMatch_all_false {m : Matcher} {r : Record} :
    ∀ {buf : List Record}, (∀ e ∈ buf, m r e = some false) →
      scanMatch m r buf = some none := by
  intro buf
  induction buf with
  | nil => intro _; rfl
  | cons e rest ih =>
      intro h
      unfold scanMatch
      rw [h e (by simp)]
      exact ih (fun x hx => h x (by simp [hx]))

/-- Characterization of the scan: `some none` means every entry was
rejected; `some (some e)` means `e` is the first accepted entry. -/
theorem scanMatch_spec {m : Matcher} {r : Record} :
    ∀ {buf : List Record} {res : Option Record}, scanMatch m r buf = some res →
      (res = none ∧ ∀ e ∈ buf, m r e = some false) ∨
      (∃ e pre post, res = some e ∧ buf = pre ++ e :: post ∧
        (∀ x ∈ pre, m r x = some false) ∧ m r e = some true) := by
  intro buf
  induction buf with
  | nil =>
      intro res h
      left
      refine ⟨(Option.some.inj h).symm, by simp⟩
  | cons e rest ih =>
      intro res h
      unfold scanMatch at h
      cases hme : m r e with
      | none => rw [hme] at h; exact absurd h (by simp)
      | some v =>
          rw [hme] at h
          cases v with
          | true =>
              right
              exact ⟨e, [], rest, (Option.some.inj h).symm, by simp, by simp, hme⟩
          | false =>
              rcases ih h with ⟨hres, hall⟩ | ⟨e', pre, post, hres, hbuf, hpre, hacc⟩
              · left
                refine ⟨hres, fun x hx => ?_⟩
                rcases List.mem_cons.mp hx with hx | hx
                · exact hx ▸ hme
                · exact hall x hx
              · right
                refine ⟨e', e :: pre, post, hres, by simp [hbuf], fun x hx => ?_, hacc⟩
                rcases List.mem_cons.mp hx with hx | hx
                · exact hx ▸ hme
                · exact hpre x hx

/-- With a matcher that rejects everything in the buffer,
`append_record` reduces to a plain append. -/
theorem appendRecord_no_match {m : Matcher} {r : Record} {buf : List Record}
    (h : ∀ e ∈ buf, m r e = some false) :
    appendRecord m r buf = some (buf ++ [r]) := by
  unfold appendRecord
  rw [scanMatch_all_false h]

/-- Every record of a buffer built by no-merge appends is one of the
appended records. With matcher semantics at threshold 0, repeated
`append_record` is exactly list append. -/
theorem appendAll_no_merge {m : Matcher} (hm : decides m 0) :
    ∀ {recs buf : List Record},
      (∀ r ∈ recs, ∃ p, midpoint r = some p) →
      (∀ x ∈ buf, ∃ p, midpoint x = some p) →
      appendAll m recs buf = some (buf ++ recs) := by
  intro recs
  induction recs with
  | nil => intro buf _ _; simp [appendAll]
  | cons r rest ih =>
      intro buf hrecs hbuf
      have hr : ∃ p, midpoint r = some p := hrecs r (by simp)
      have hbuf' : ∀ x ∈ buf ++ [r], ∃ p, midpoint x = some p := by
        intro x hx
        rcases List.mem_append.mp hx with hx | hx
        · exact hbuf x hx
        · have hxr := List.mem_singleton.mp hx
          subst hxr
          exact hr
      unfold appendAll
      rw [appendRecord_no_match (fun e he => matcher_false_zero hm hr (hbuf e he))]
      show appendAll m rest (buf ++ [r]) = some (buf ++ r :: rest)
      rw [ih (fun x hx => hrecs x (by simp [hx])) hbuf']
      simp

/-- Every datatype the `FITS2SQLITE_DATATYPES` dict can return is one
of INTEGER, REAL, TEXT. -/
theorem FITS2SQLITE_classify {fmt dt : String}
    (hf : FITS2SQLITE_DATATYPES fmt = some dt) :
    dt = "INTEGER" ∨ dt = "REAL" ∨ dt = "TEXT" := by
  unfold FITS2SQLITE_DATATYPES at hf
  by_cases h1 : fmt = "L"
  · rw [if_pos h1] at hf; exact Or.inl (Option.some.inj hf).symm
  rw [if_neg h1] at hf
  by_cases h2 : fmt = "X"
  · rw [if_pos h2] at hf; exact Or.inl (Option.some.inj hf).symm
  rw [if_neg h2] at hf
  by_cases h3 : fmt = "B"
  · rw [if_pos h3] at hf; exact Or.inl (Option.some.inj hf).symm
  rw [if_neg h3] at hf
  by_cases h4 : fmt = "I"
  · rw [if_pos h4] at hf; exact Or.inl (Option.some.inj hf).symm
  rw [if_neg h4] at hf
  by_cases h5 : fmt = "J"
  · rw [if_pos h5] at hf; exact Or.inl (Option.some.inj hf).symm
  rw [if_neg h5] at hf
  by_cases h6 : fmt = "K"
  · rw [if_pos h6] at hf; exact Or.inl (Option.some.inj hf).symm
  rw [if_neg h6] at hf
  by_cases h7 : fmt = "A"
  · rw [if_pos h7] at hf; exact Or.inr (Or.inr (Option.some.inj hf).symm)
  rw [if_neg h7] at hf
  by_cases h8 : fmt = "E"
  · rw [if_pos h8] at hf; exact Or.inr (Or.inl (Option.some.inj hf).symm)
  rw [if_neg h8] at hf
  by_cases h9 : fmt = "D"
  · rw [if_pos h9] at hf; exact Or.inr (Or.inl (Option.some.inj hf).symm)
  rw [if_neg h9] at hf
  by_cases h10 : fmt = "C"
  · rw [if_pos h10] at hf; exact Or.inr (Or.inr (Option.some.inj hf).symm)
  rw [if_neg h10] at hf
  by_cases h11 : fmt = "M"
  · rw [if_pos h11] at hf; exact Or.inr (Or.inr (Option.some.inj hf).symm)
  rw [if_neg h11] at hf
  by_cases h12 : fmt = "Q"
  · rw [if_pos h12] at hf; exact Or.inr (Or.inr (Option.some.inj hf).symm)
  rw [if_neg h12] at hf
  exact absurd hf (by simp)

/-- A record whose midpoint exists has all four envelope bounds set. -/
theorem coords_all_some {r : Record} {p : ℚ × ℚ} (hp : midpoint r = some p) :
    ∃ a b c d, r.coords.raMin = some a ∧ r.coords.raMax = some b ∧
      r.coords.decMin = some c ∧ r.coords.decMax = some d := by
  unfold midpoint at hp
  cases h1 : r.coords.raMin <;> cases h2 : r.coords.raMax <;>
    cases h3 : r.coords.decMin <;> cases h4 : r.coords.decMax <;>
    rw [h1, h2, h3, h4] at hp <;> simp at hp <;>
    exact ⟨_, _, _, _, rfl, rfl, rfl, rfl⟩

/-- The candidate query succeeds on a record with a full envelope, and
every candidate it returns is a stored record. -/
theorem queryCandidates_sub (t : ℚ) {r : Record} (coll : List Record)
    (h : ∃ p, midpoint r = some p) :
    ∃ cands, queryCandidates t r coll = some cands ∧ ∀ c ∈ cands, c ∈ coll := by
  obtain ⟨p, hp⟩ := h
  obtain ⟨a, b, c, d, ha, hb, hc, hd⟩ := coords_all_some hp
  unfold queryCandidates
  rw [ha, hb, hc, hd]
  exact ⟨_, rfl, fun x hx => List.mem_of_mem_filter hx⟩

/-- If the matcher rejects every candidate, the store loop passes the
record through unchanged and deletes nothing. -/
theorem reconcileLoop_no_match {m : Matcher} {r : Record} :
    ∀ {cands : List Record}, (∀ c ∈ cands, m r c = some false) →
      reconcileLoop m r cands = some (r, []) := by
  intro cands
  induction cands with
  | nil => intro _; rfl
  | cons c rest ih =>
      intro h
      unfold reconcileLoop
      rw [h c (by simp)]
      exact ih (fun x hx => h x (by simp [hx]))

/-- With matcher semantics at threshold 0 and full envelopes
everywhere, the store reconciliation loop is the identity on the
record list and on the collection. -/
theorem insertLoop_no_merge {m : Matcher} (hm : decides m 0) :
    ∀ {recs coll : List Record},
      (∀ r ∈ recs, ∃ p, midpoint r = some p) →
      (∀ x ∈ coll, ∃ p, midpoint x = some p) →
      insertLoop m 0 recs coll = some (recs, coll) := by
  intro recs
  induction recs with
  | nil => intro coll _ _; rfl
  | cons r rest ih =>
      intro coll hrecs hcoll
      have hr : ∃ p, midpoint r = some p := hrecs r (by simp)
      obtain ⟨cands, hq, hsub⟩ := queryCandidates_sub 0 coll hr
      unfold insertLoop
      simp only [hq, reconcileLoop_no_match
        (fun c hc => matcher_false_zero hm hr (hcoll c (hsub c hc))),
        List.foldl_nil, ih (fun x hx => hrecs x (by simp [hx])) hcoll]
      rfl

/-- `insert_record_list` with no merges appends the buffered records to
the collection unchanged. -/
theorem insertRecordList_no_merge {m : Matcher} (hm : decides m 0)
    (recs coll : List Record)
    (hrecs : ∀ r ∈ recs, ∃ p, midpoint r = some p)
    (hcoll : ∀ x ∈ coll, ∃ p, midpoint x = some p) :
    insertRecordList m recs coll 0 = some (recs, coll ++ recs) := by
  unfold insertRecordList
  rw [insertLoop_no_merge hm hrecs hcoll]
  rfl

/-- The row loop of `upload_hdu_list` at threshold 0: every row appends
one record, the buffer flushes exactly at multiples of the (positive)
buffer size, and the remaining buffer length is the row count modulo
the buffer size. -/
theorem uploadLoop_no_merge {m : Matcher} (hm : decides m 0) {b : ℕ} (hb : 0 < b)
    {cols : List String} {src : String} :
    ∀ {rows : List Row} (buffer coll : List Record),
      (∀ row ∈ rows, ∃ r, generateRecord row cols src = some r ∧ ∃ p, midpoint r = some p) →
      (∀ x ∈ buffer, ∃ p, midpoint x = some p) →
      (∀ x ∈ coll, ∃ p, midpoint x = some p) →
      buffer.length < b →
      ∃ trace buf' coll',
        uploadLoop m 0 (b : ℤ) cols src rows buffer coll = some (trace, buf', coll') ∧
        buf'.length = (buffer.length + rows.length) % b ∧
        (∀ x ∈ buf', ∃ p, midpoint x = some p) ∧
        (∀ x ∈ coll', ∃ p, midpoint x = some p) := by
  intro rows
  induction rows with
  | nil =>
      intro buffer coll _ hbuffer hcoll hlt
      exact ⟨[], buffer, coll, rfl, by simp [Nat.mod_eq_of_lt hlt], hbuffer, hcoll⟩
  | cons row rest ih =>
      intro buffer coll hrows hbuffer hcoll hlt
      obtain ⟨r, hgen, hnum⟩ := hrows row (by simp)
      have hbuf' : ∀ x ∈ buffer ++ [r], ∃ p, midpoint x = some p := by
        intro x hx
        rcases List.mem_append.mp hx with hx | hx
        · exact hbuffer x hx
        · have hxr := List.mem_singleton.mp hx
          subst hxr
          exact hnum
      unfold uploadLoop
      simp only [hgen,
        appendRecord_no_match (fun e he => matcher_false_zero hm hnum (hbuffer e he))]
      by_cases hfull : buffer.length + 1 = b
      · rw [if_pos (⟨by exact_mod_cast hb, by
          simp only [List.length_append, List.length_singleton]; push_cast; omega⟩ :
            0 < (b : ℤ) ∧ (b : ℤ) ≤ ((buffer ++ [r]).length : ℤ))]
        simp only [insertRecordList_no_merge hm (buffer ++ [r]) coll hbuf' hcoll]
        have hcoll' : ∀ x ∈ coll ++ (buffer ++ [r]), ∃ p, midpoint x = some p := by
          intro x hx
          rcases List.mem_append.mp hx with hx | hx
          · exact hcoll x hx
          · exact hbuf' x hx
        obtain ⟨trace, buf', coll', heq, hlen, hnb, hnc⟩ :=
          ih [] (coll ++ (buffer ++ [r]))
            (fun x hx => hrows x (by simp [hx])) (by simp) hcoll' hb
        refine ⟨(buffer ++ [r]) :: trace, buf', coll', ?_, ?_, hnb, hnc⟩
        · rw [heq]; rfl
        · rw [hlen]
          simp only [List.length_nil, List.length_cons, Nat.zero_add]
          have h1 : buffer.length + (rest.length + 1) = rest.length + b := by omega
          rw [h1, Nat.add_mod_right]
      · have hlt' : buffer.length + 1 < b := by omega
        rw [if_neg (by
          simp only [List.length_append, List.length_singleton]
          push_cast
          omega)]
        obtain ⟨trace, buf', coll', heq, hlen, hnb, hnc⟩ :=
          ih (buffer ++ [r]) coll
            (fun x hx => hrows x (by simp [hx])) hbuf' hcoll (by simpa using hlt')
        refine ⟨trace, buf', coll', heq, ?_, hnb, hnc⟩
        rw [hlen]
        have h1 : (buffer ++ [r]).length + rest.length = buffer.length + (row :: rest).length := by
          simp
          omega
        rw [h1]

-- ===================================================================
-- Claim theorems
-- ===================================================================

/-- C1: the claim that `merge_records` yields the union bounding
rectangle fails on the code. Merging the singleton records at (0, 0)
and (2, 2), the code computes `ra.max` and `dec.max` with `min`, giving
`min 0 2 = 0`, while the union bounding rectangle's maxima are
`max 0 2 = 2`; consequently merge associativity of the envelope fails
as well. -/
theorem c1_merge_envelope_max_is_min :
    mergeRecords recA recB = some recAB ∧
    recAB.coords.raMax = some 0 ∧ recAB.coords.decMax = some 0 ∧
    max (0 : ℚ) 2 = 2 ∧ (0 : ℚ) ≠ 2 := by
  refine ⟨by simp [mergeRecords, recA, recB, recAB], rfl, rfl, by norm_num, by norm_num⟩

/-- C2 (counterexample): in one reconciliation pass, the buffered
record `recN` merges with BOTH stored candidates `recC1` and `recC2`
(its final provenance has length 3 = 1 + 2), the matcher agreeing with
`should_merge_by_distance` at threshold 1 on each tested pair. This
refutes the at-most-one-candidate claim. -/
theorem c2_two_candidates_merged :
    insertRecordList mTrue [recN] [recC1, recC2] 1 = some ([recNC12], [recNC12]) ∧
    recNC12.data.length = 3 ∧ recN.data.length = 1 ∧
    decidesAt mTrue 1 recN recC1 ∧ decidesAt mTrue 1 recNC1 recC2 := by
  refine ⟨?_, rfl, rfl,
    decidesAt_mTrue_same_mid (p := pN) (by simp [midpoint, recN, pN])
      (by simp [midpoint, recC1, pN]) (by norm_num),
    decidesAt_mTrue_same_mid (p := pN) (by simp [midpoint, recNC1, pN])
      (by simp [midpoint, recC2, pN]) (by norm_num)⟩
  simp [insertRecordList, insertLoop, queryCandidates, matchesQuery, reconcileLoop,
    mergeRecords, mTrue, recN, recC1, recC2, recNC1, recNC12, List.filter, List.erase]

/-- C2 (amended): during one reconciliation pass a buffered record
merges with EVERY candidate the matcher accepts as the record evolves —
possibly more than one. Each accepted candidate is deleted, in query
order, and the final record's provenance is the buffered record's
provenance followed by all merged candidates' provenance. -/
theorem c2_store_merge_unbounded {m : Matcher} {rec rec' : Record}
    {cands deleted : List Record}
    (h : reconcileLoop m rec cands = some (rec', deleted)) :
    deleted.Sublist cands ∧
    rec'.data = rec.data ++ (deleted.map Record.data).flatten := by
  induction cands generalizing rec rec' deleted with
  | nil =>
      obtain ⟨rfl, rfl⟩ : rec = rec' ∧ [] = deleted := by
        have := Option.some.inj h
        exact ⟨congrArg Prod.fst this, congrArg Prod.snd this⟩
      exact ⟨List.nil_sublist _, by simp⟩
  | cons c rest ih =>
      unfold reconcileLoop at h
      cases hmc : m rec c with
      | none => rw [hmc] at h; exact absurd h (by simp)
      | some v =>
          cases v with
          | false =>
              simp only [hmc] at h
              obtain ⟨hs, hd⟩ := ih h
              exact ⟨hs.cons c, hd⟩
          | true =>
              simp only [hmc] at h
              cases hmerge : mergeRecords rec c with
              | none => simp [hmerge] at h
              | some merged =>
                  simp only [hmerge] at h
                  cases hrl : reconcileLoop m merged rest with
                  | none => simp [hrl] at h
                  | some p =>
                      rw [hrl] at h
                      obtain ⟨r'', del''⟩ := p
                      simp only [Option.map_some'] at h
                      obtain ⟨rfl, rfl⟩ : r'' = rec' ∧ c :: del'' = deleted := by
                        have hpair := Option.some.inj h
                        exact ⟨congrArg Prod.fst hpair, congrArg Prod.snd hpair⟩
                      obtain ⟨hs, hd⟩ := ih hrl
                      refine ⟨hs.cons₂ c, ?_⟩
                      rw [hd, mergeRecords_data hmerge]
                      simp [List.append_assoc]

/-- C2 (witness for the amended theorem): the concrete two-candidate
run instantiates it. -/
theorem c2_store_merge_unbounded_witness :
    ([recC1, recC2] : List Record).Sublist [recC1, recC2] ∧
    recNC12.data = recN.data ++ ([recC1, recC2].map Record.data).flatten :=
  c2_store_merge_unbounded (m := mTrue) (by
    simp [reconcileLoop, mTrue, mergeRecords, recN, recC1, recC2, recNC1, recNC12])

/-- C3 (counterexample): at threshold 0 with both representative points
equal (separation exactly 0 = threshold), the claim "true iff
separation ≤ threshold" demands a match, but `should_merge_by_distance`
returns the proposition `0 ≤ sep < 0`, which is false. -/
theorem c3_boundary_counterexample :
    midpoint recN = some pN ∧
    shouldMergeByDistance recN recN 0 =
      some (withinBounds (sepRad pN pN) (-(asecToRad 0)) (asecToRad 0)) ∧
    sepRad pN pN ≤ asecToRad 0 ∧
    ¬ withinBounds (sepRad pN pN) (-(asecToRad 0)) (asecToRad 0) := by
  have hmid : midpoint recN = some pN := by simp [midpoint, recN, pN]
  refine ⟨hmid, ?_, ?_, not_withinBounds_zero pN pN⟩
  · unfold shouldMergeByDistance
    rw [hmid]
  · rw [sepRad_self, asecToRad_zero]

/-- C3 (amended): for records with full envelopes and a nonnegative
threshold, `should_merge_by_distance` returns true iff the angular
separation of the envelope midpoints is STRICTLY below the threshold
(the `is_within_bounds` upper bound is exclusive); equality with the
threshold yields false. -/
theorem c3_match_iff_sep_strictly_below {r1 r2 : Record} {p q : ℚ × ℚ} {t : ℚ}
    (h1 : midpoint r1 = some p) (h2 : midpoint r2 = some q) (ht : 0 ≤ t) :
    matchTrue r1 r2 t ↔ sepRad p q < asecToRad t := by
  unfold matchTrue shouldMergeByDistance
  rw [h1, h2]
  constructor
  · rintro ⟨P, hP, hp⟩
    obtain rfl := Option.some.inj hP
    exact hp.2
  · intro h
    exact ⟨_, rfl,
      le_trans (neg_nonpos.mpr (asecToRad_nonneg ht)) (sepRad_nonneg p q), h⟩

/-- C3 (witness): the amended theorem at `recN`, `recN`, threshold 1. -/
theorem c3_match_iff_witness :
    matchTrue recN recN 1 ↔ sepRad pN pN < asecToRad 1 :=
  c3_match_iff_sep_strictly_below (by simp [midpoint, recN, pN])
    (by simp [midpoint, recN, pN]) (by norm_num)

/-- C4: with threshold 0 no pair of (full-envelope) records ever
matches, so repeatedly appending records to an empty buffer through
`append_record` reproduces exactly the appended records: no merge
happens, the final buffer is the input list itself (same count, each
record — hence its provenance — untouched). -/
theorem c4_zero_threshold_isolation {m : Matcher} (hm : decides m 0)
    {recs : List Record} (hnum : ∀ r ∈ recs, ∃ p, midpoint r = some p) :
    appendAll m recs [] = some recs := by
  simpa using appendAll_no_merge hm hnum (by simp)

/-- C4 (witness): two distinct records at the same position stay
distinct at threshold 0. -/
theorem c4_zero_threshold_witness :
    appendAll mZero [recN, recC1] [] = some [recN, recC1] :=
  c4_zero_threshold_isolation decidesZero (by
    intro r hr
    rcases List.mem_cons.mp hr with rfl | hr
    · exact ⟨pN, by simp [midpoint, recN, pN]⟩
    · rcases List.mem_singleton.mp hr with rfl
      exact ⟨pN, by simp [midpoint, recC1, pN]⟩)

/-- C5 (counterexample): a record built from a row with no `ra`/`dec`
column has all envelope bounds `None` (not a degenerate single-point
envelope), and reconciliation (`insert_record_list`) raises a
`TypeError` on it — even against an empty store — instead of passing it
through as a singleton merge. -/
theorem c5_missing_coords_counterexample :
    generateRecord rowX colsX "f" = some recX ∧
    recX.coords.raMin = none ∧ recX.coords.decMin = none ∧
    recX.data.length = 1 ∧
    insertRecordList mZero [recX] [] 0 = none := by
  refine ⟨?_, rfl, rfl, rfl, ?_⟩
  · simp [generateRecord, rowX, colsX, recX, buildRecordData, foldCoords, rowGet, strLower]
  · simp [insertRecordList, insertLoop, queryCandidates, recX]

/-- C5 (amended): any record with a missing envelope bound makes
`insert_record_list` raise (`None - threshold` is a `TypeError`); the
record does not survive reconciliation, for any matcher, threshold,
accompanying records, or store contents. -/
theorem c5_missing_coords_aborts {m : Matcher} {t : ℚ} {rec : Record}
    {rest coll : List Record} (h : rec.coords.raMin = none) :
    insertRecordList m (rec :: rest) coll t = none := by
  unfold insertRecordList insertLoop queryCandidates
  rw [h]
  rfl

/-- C5 (witness): the amended theorem at the concrete coordinate-free
record. -/
theorem c5_missing_coords_aborts_witness :
    insertRecordList mZero [recX] [] 0 = none :=
  c5_missing_coords_aborts rfl

/-- C6: `append_record` is the greedy one-partner buffer merge: either
no buffer entry matches and the incoming record is appended at the end,
or the buffer splits around a FIRST matching entry `e` (everything
before `e` rejected), `e` is removed, and the single merge result is
appended at the end. -/
theorem c6_append_record_greedy {m : Matcher} {record : Record}
    {buffer buffer' : List Record} (h : appendRecord m record buffer = some buffer') :
    ((∀ e ∈ buffer, m record e = some false) ∧ buffer' = buffer ++ [record]) ∨
    (∃ pre e post merged, buffer = pre ++ e :: post ∧
      (∀ x ∈ pre, m record x = some false) ∧ m record e = some true ∧
      mergeRecords record e = some merged ∧ buffer' = pre ++ post ++ [merged]) := by
  unfold appendRecord at h
  cases hscan : scanMatch m record buffer with
  | none => rw [hscan] at h; exact absurd h (by simp)
  | some res =>
      rcases scanMatch_spec hscan with ⟨hres, hall⟩ | ⟨e, pre, post, hres, hbuf, hpre, hacc⟩
      · subst hres
        simp only [hscan] at h
        left
        exact ⟨hall, (Option.some.inj h).symm⟩
      · subst hres
        simp only [hscan] at h
        cases hmerge : mergeRecords record e with
        | none => simp [hmerge] at h
        | some merged =>
            simp only [hmerge, Option.map_some'] at h
            right
            have hne : e ∉ pre := by
              intro hmem
              have hfe := hpre e hmem
              rw [hacc] at hfe
              exact absurd (Option.some.inj hfe) (by simp)
            have herase : buffer.erase e = pre ++ post := by
              rw [hbuf, List.erase_append_right _ hne, List.erase_cons_head]
            refine ⟨pre, e, post, merged, hbuf, hpre, hacc, hmerge, ?_⟩
            have hb' := (Option.some.inj h).symm
            rw [hb', herase]

/-- C6 (witness): appending to the empty buffer takes the no-match
branch. -/
theorem c6_append_record_greedy_witness :
    ((∀ e ∈ ([] : List Record), mZero recN e = some false) ∧
      [recN] = ([] : List Record) ++ [recN]) ∨
    (∃ pre e post merged, ([] : List Record) = pre ++ e :: post ∧
      (∀ x ∈ pre, mZero recN x = some false) ∧ mZero recN e = some true ∧
      mergeRecords recN e = some merged ∧ [recN] = pre ++ post ++ [merged]) :=
  c6_append_record_greedy (by decide)

/-- C7: provenance is conserved by `merge_records`: whenever a merge
does not raise, its `data` list is the first record's `data` followed
by the second's, so its length is the sum of the two lengths (nothing
dropped or duplicated). -/
theorem c7_provenance_conservation {a b m' : Record}
    (h : mergeRecords a b = some m') :
    m'.data = a.data ++ b.data ∧
    m'.data.length = a.data.length + b.data.length := by
  have hd := mergeRecords_data h
  exact ⟨hd, by rw [hd, List.length_append]⟩

/-- C7 (witness): the concrete merge of `recA` and `recB`. -/
theorem c7_provenance_witness :
    recAB.data = recA.data ++ recB.data ∧
    recAB.data.length = recA.data.length + recB.data.length :=
  c7_provenance_conservation (by simp [mergeRecords, recA, recB, recAB])

/-- C8 (counterexample): coercion is not total — under the
INTEGER-typed format code `I`, the raw text value `"abc"` makes
`int(...)` raise a `ValueError`; there is no fallback to Text. -/
theorem c8_coercion_raises :
    FITS2SQLITE_DATATYPES "I" = some "INTEGER" ∧
    coerceValue "I" (.text "abc") = none ∧
    (Value.text "abc").isText = true := by
  exact ⟨rfl, by decide, rfl⟩

/-- C8 (amended): coercion is directed by the declared column type, not
by parsing attempts: for every KNOWN format code it returns exactly one
value on every numeric raw value, and on every raw value at all when
the declared type is TEXT; but a text value unparseable as a declared
numeric type raises, as does an unknown format code. -/
theorem c8_type_directed_totality {fmt dt : String} {v : Value}
    (hf : FITS2SQLITE_DATATYPES fmt = some dt)
    (hv : v.isNumeric = true ∨ dt = "TEXT") :
    ∃ w, coerceValue fmt v = some w := by
  have hdt : dt = "INTEGER" ∨ dt = "REAL" ∨ dt = "TEXT" := FITS2SQLITE_classify hf
  rcases hdt with rfl | rfl | rfl
  · rcases hv with hv | habs
    · cases v with
      | int n => exact ⟨.int n, by simp [coerceValue, hf, pyInt]⟩
      | real q => exact ⟨.int (ratTruncate q), by simp [coerceValue, hf, pyInt]⟩
      | bool b => exact ⟨.int (if b then 1 else 0), by simp [coerceValue, hf, pyInt]⟩
      | text s => exact absurd hv (by simp [Value.isNumeric])
    · exact absurd habs (by decide)
  · rcases hv with hv | habs
    · cases v with
      | int n => exact ⟨.real (n : ℚ), by simp [coerceValue, hf, pyFloat]⟩
      | real q => exact ⟨.real q, by simp [coerceValue, hf, pyFloat]⟩
      | bool b => exact ⟨.real (if b then 1 else 0), by simp [coerceValue, hf, pyFloat]⟩
      | text s => exact absurd hv (by simp [Value.isNumeric])
    · exact absurd habs (by decide)
  · exact ⟨.text (pyStr v), by simp [coerceValue, hf]⟩

/-- C8 (witness): an integer value under the `I` format coerces. -/
theorem c8_type_directed_witness : ∃ w, coerceValue "I" (.int 5) = some w :=
  c8_type_directed_totality rfl (Or.inl rfl)

/-- C9 (counterexample): an integer exceeding `MONGO_MAX_INT` is NOT
demoted to Text: coercion under the 64-bit-integer format `K` keeps it
as an Integer with its exact value (the constant is never consulted). -/
theorem c9_big_int_stays_integer :
    MONGO_MAX_INT < MONGO_MAX_INT + 1 ∧
    coerceValue "K" (.int (MONGO_MAX_INT + 1)) = some (.int (MONGO_MAX_INT + 1)) ∧
    (Value.int (MONGO_MAX_INT + 1)).isText = false := by
  exact ⟨lt_add_one _, rfl, rfl⟩

/-- C9 (amended): no magnitude bound is applied anywhere: for EVERY
integer raw value, of any magnitude, coercion under an INTEGER-typed
format returns that exact Integer. -/
theorem c9_no_integer_demotion (n : ℤ) :
    coerceValue "K" (.int n) = some (.int n) := rfl

/-- C10 (counterexample): with a positive separation threshold, two
rows at the same position and buffer size 2 (row count 2 = 1 × 2, a
positive multiple), the two records merge in the buffer, no mid-run
flush happens, and the unconditional final drain passes a NONEMPTY
one-record list to the store insert — refuting the claim that a
positive-multiple row count always drains an empty list. The matcher
agrees with `should_merge_by_distance` on the one pair it tested. -/
theorem c10_merge_breaks_empty_drain :
    uploadHduList mTrue 1 2 colsR "s" [row1, row2] [] = some ([[rec21]], [rec21]) ∧
    ([row1, row2] : List Row).length = 1 * 2 ∧
    ([rec21] : List Record) ≠ [] ∧
    decidesAt mTrue 1 rec2 rec1 := by
  refine ⟨?_, rfl, by simp,
    decidesAt_mTrue_same_mid (p := pN) (by simp [midpoint, rec2, pN])
      (by simp [midpoint, rec1, pN]) (by norm_num)⟩
  simp [uploadHduList, uploadLoop, generateRecord, buildRecordData, foldCoords, rowGet,
    strLower, Value.toQ, updateBound, row1, row2, colsR, appendRecord, scanMatch, mTrue,
    mergeRecords, rec1, rec2, rec21, insertRecordList, insertLoop, queryCandidates,
    matchesQuery, reconcileLoop, List.filter]

/-- C10 (amended): the final drain is unconditional (the trace of store
inserts is never empty), and PROVIDED no merges occur — matcher
semantics at the default threshold 0, with full-envelope records — a
row count that is a positive multiple of a positive buffer size leaves
the buffer empty at the drain, which then hands the store insert an
empty record list. -/
theorem c10_final_drain_empty {m : Matcher} (hm : decides m 0) {b : ℕ} (hb : 0 < b)
    {cols : List String} {src : String} {rows : List Row} {coll : List Record}
    (hrows : ∀ row ∈ rows,
      ∃ r, generateRecord row cols src = some r ∧ ∃ p, midpoint r = some p)
    (hcoll : ∀ x ∈ coll, ∃ p, midpoint x = some p)
    {k : ℕ} (hk : 0 < k) (hlen : rows.length = k * b) :
    ∃ trace coll', uploadHduList m 0 (b : ℤ) cols src rows coll = some (trace, coll') ∧
      trace ≠ [] ∧ trace.getLast? = some [] := by
  obtain ⟨trace, buf', coll', heq, hblen, hnb, hnc⟩ :=
    uploadLoop_no_merge hm hb [] coll hrows (by simp) hcoll hb
  have hbuf0 : buf' = [] := by
    have hz : buf'.length = 0 := by
      rw [hblen]
      simp [hlen, Nat.mul_mod_left]
    exact List.length_eq_zero.mp hz
  subst hbuf0
  have hins : insertRecordList m [] coll' 0 = some ([], coll') := by
    simpa using insertRecordList_no_merge hm [] coll' (by simp) hnc
  unfold uploadHduList
  rw [heq]
  simp only [hins]
  exact ⟨trace ++ [[]], coll', rfl, by simp, by simp⟩

/-- C10 (witness): one row, buffer size 1, threshold-0 matcher. -/
theorem c10_final_drain_witness :
    ∃ trace coll',
      uploadHduList mZero 0 ((1 : ℕ) : ℤ) colsR "s" [row1] [] = some (trace, coll') ∧
      trace ≠ [] ∧ trace.getLast? = some [] :=
  c10_final_drain_empty decidesZero (by norm_num) (by
      intro row hrow
      have hr := List.mem_singleton.mp hrow
      subst hr
      refine ⟨rec1, ?_, ⟨pN, by simp [midpoint, rec1, pN]⟩⟩
      simp [generateRecord, row1, colsR, rec1, buildRecordData, foldCoords, rowGet,
        strLower, Value.toQ, updateBound])
    (by simp) (k := 1) (by norm_num) rfl

end AstroDB
